import Mathlib

/-!
Verification of the core pipeline of `src/pollution_trace.py` (class
`PollutionTracer`): preprocessing (`preprocess_data`), spatial clustering
(`spatial_clustering`, which standardizes coordinates and runs DBSCAN with
`eps = 0.3`, `min_samples = 3`), pollutant aggregation (`pollution_analysis`)
and the per-cluster report aggregation inside `generate_trace_report`.

Numeric cell values are modelled as rationals (`ℚ`); a missing value (pandas
`NaN`) is modelled as `none : Option ℚ`.  The library calls the script relies
on are embedded by their documented semantics:

* `pd.to_numeric(col, errors='coerce')` parses each cell independently and
  turns unparseable cells into `NaN`;
* `DataFrame.sum(axis=1)` / groupby `'sum'` skip `NaN` and return 0 for an
  all-`NaN` selection;
* `Series.mode()` drops `NaN`, and returns the most frequent values sorted
  ascending (so `mode()[0]` is the least most-frequent value);
* `DataFrame.sort_values(col, ascending=False)` sorts via `nargsort`: it
  reverses the rows, runs an ascending argsort with the default `quicksort`
  kernel, and reverses the result; numpy's quicksort makes no tie-order
  guarantee, so the model fixes a stable kernel as one concrete deterministic
  choice and no theorem below relies on the tie order this choice induces;
* `StandardScaler` standardizes each coordinate dimension by its mean and
  population standard deviation, using scale 1 when the variance is 0; its
  input validation (`check_array` with `ensure_min_samples=1`) raises
  `ValueError` on an input with 0 samples, and it propagates `NaN`, on which
  `DBSCAN.fit`'s own input validation then raises `ValueError`;
* `sklearn.cluster.DBSCAN` implements the classic density-based clustering
  algorithm: core points have at least `min_samples` points (themselves
  included) within distance `eps`; clusters are connected components of the
  core points under eps-adjacency, numbered in discovery order while scanning
  points in input order; a non-core point within `eps` of a core point joins
  the first-discovered such cluster; all remaining points are noise (-1).
-/

namespace PollutionTrace

open List

/-- A raw spreadsheet cell destined for a numeric column: a number, an
arbitrary string, or an empty cell. -/
inductive RawValue where
  | num (x : ℚ)
  | text (s : String)
  | null
  deriving DecidableEq

/-- Parse a list of decimal digit characters into a natural number
(`none` if empty or a non-digit occurs). -/
def parseDigits (cs : List Char) : Option ℕ :=
  if cs = [] then none
  else if cs.all Char.isDigit then
    some (cs.foldl (fun n c => 10 * n + (c.toNat - 48)) 0)
  else none

/-- Parse an optionally signed decimal literal, with an optional fractional
part, into a rational (model of the numeric grammar accepted by
`pd.to_numeric`). -/
def parseDecimal (s : String) : Option ℚ :=
  let cs := s.toList
  let (sgn, body) : ℚ × List Char :=
    match cs with
    | '-' :: r => (-1, r)
    | '+' :: r => (1, r)
    | _ => (1, cs)
  match body.splitOn '.' with
  | [ip] => (parseDigits ip).map (fun n => sgn * n)
  | [ip, fp] =>
      if ip = [] then
        (parseDigits fp).map (fun f => sgn * ((f : ℚ) / (10 : ℚ) ^ fp.length))
      else if fp = [] then
        (parseDigits ip).map (fun n => sgn * n)
      else
        match parseDigits ip, parseDigits fp with
        | some n, some f => some (sgn * ((n : ℚ) + (f : ℚ) / (10 : ℚ) ^ fp.length))
        | _, _ => none
  | _ => none

/-- `pd.to_numeric(·, errors='coerce')` on one cell: numbers pass through,
parseable strings are converted, anything else becomes missing (`NaN`). -/
def toNumeric : RawValue → Option ℚ
  | RawValue.num x => some x
  | RawValue.text s => parseDecimal s
  | RawValue.null => none

/-- One raw input row, with the two categorical identity columns
(`设置单位名称`, `排污口类型名称`) and the seven columns that
`preprocess_data` coerces to numbers. -/
structure RawRow where
  entity : Option String
  outletType : Option String
  lon : RawValue
  lat : RawValue
  wastewater : RawValue
  mainPoll : RawValue
  ammonia : RawValue
  phosphorus : RawValue
  nitrogen : RawValue
  deriving DecidableEq

/-- One typed record after `preprocess_data`: every numeric column is either
a rational or missing. -/
structure Record where
  entity : Option String
  outletType : Option String
  lon : Option ℚ
  lat : Option ℚ
  wastewater : Option ℚ
  mainPoll : Option ℚ
  ammonia : Option ℚ
  phosphorus : Option ℚ
  nitrogen : Option ℚ
  deriving DecidableEq

/-- `preprocess_data` on one row: each of the seven numeric columns is coerced
independently with `pd.to_numeric(errors='coerce')`; the categorical columns
pass through unchanged. -/
def preprocessRow (row : RawRow) : Record where
  entity := row.entity
  outletType := row.outletType
  lon := toNumeric row.lon
  lat := toNumeric row.lat
  wastewater := toNumeric row.wastewater
  mainPoll := toNumeric row.mainPoll
  ammonia := toNumeric row.ammonia
  phosphorus := toNumeric row.phosphorus
  nitrogen := toNumeric row.nitrogen

/-- `preprocess_data` over the whole table (`self.data`): column-wise
coercion, which acts row by row and keeps every row. -/
def preprocess (rows : List RawRow) : List Record :=
  rows.map preprocessRow

/-- Sum of a selection of cells with `NaN` skipped, as pandas `sum` computes
it (`skipna=True`, `min_count=0`: an all-`NaN` selection sums to 0). -/
def nanSum (xs : List (Option ℚ)) : ℚ :=
  (xs.filterMap id).sum

/-- The derived `total_pollution` column (lines 50-53): the pandas row sum of
the four pollutant-load columns. -/
def totalPollution (r : Record) : ℚ :=
  nanSum [r.mainPoll, r.ammonia, r.phosphorus, r.nitrogen]

/-- Pandas `sort_values(col, ascending=False)` (via `nargsort`): reverse the
rows, sort ascending by the key, reverse the result.  The default `quicksort`
kernel leaves the relative order of equal keys unspecified; the model uses a
stable kernel as one concrete deterministic choice, and no theorem relies on
the tie order this choice induces. -/
def sortDescBy (key : α → ℚ) (l : List α) : List α :=
  (l.reverse.mergeSort (fun a b => decide (key a ≤ key b))).reverse

/-- The frequency of the most frequent non-missing value of a series. -/
def maxFreq (xs : List (Option String)) : ℕ :=
  ((xs.filterMap id).dedup.map (fun v => (xs.filterMap id).count v)).foldr
    max 0

/-- Pandas `Series.mode()` (drop `NaN`, keep the values of maximal frequency,
return them sorted ascending). -/
def seriesMode (xs : List (Option String)) : List String :=
  ((xs.filterMap id).dedup.filter
      (fun v => (xs.filterMap id).count v = maxFreq xs)).mergeSort
    (fun a b => decide (a ≤ b))

/-- The outlet-type aggregation lambda of line 59:
`x.mode()[0] if not x.mode().empty else None`. -/
def modeChoice (xs : List (Option String)) : Option String :=
  (seriesMode xs).head?

/-- Modelled from the spec: the spec's tie-break rule for the dominant
category — statistical mode with ties broken by the first-encountered value
in input order.  Stated only to be compared against `modeChoice`, the rule
the source actually computes. -/
def specFirstEncounteredMode (xs : List (Option String)) : Option String :=
  (xs.filterMap id).find? (fun v => (xs.filterMap id).count v = maxFreq xs)

/-- One row of `company_stats` (lines 56-63). -/
structure CompanyStat where
  name : String
  total : ℚ
  wastewater : ℚ
  dominant : Option String
  deriving DecidableEq

/-- The group keys of `groupby('设置单位名称')`: the distinct non-missing
entity names, sorted ascending (pandas groups with `sort=True` and drops
`NaN` keys). -/
def entityKeys (recs : List Record) : List String :=
  ((recs.filterMap Record.entity).dedup).mergeSort (fun a b => decide (a ≤ b))

/-- The rows of one entity group, in input order. -/
def entityGroup (recs : List Record) (k : String) : List Record :=
  recs.filter (fun r => r.entity = some k)

/-- The aggregate row of one entity group: summed `total_pollution`, summed
wastewater volume (`NaN` skipped), and the mode-based dominant outlet type. -/
def mkCompanyStat (recs : List Record) (k : String) : CompanyStat where
  name := k
  total := ((entityGroup recs k).map totalPollution).sum
  wastewater := nanSum ((entityGroup recs k).map Record.wastewater)
  dominant := modeChoice ((entityGroup recs k).map Record.outletType)

/-- `company_stats` (lines 56-63): one aggregate row per entity, finally
sorted descending by summed `total_pollution`. -/
def companyStats (recs : List Record) : List CompanyStat :=
  sortDescBy CompanyStat.total ((entityKeys recs).map (mkCompanyStat recs))

/-- `pollution_analysis` (lines 47-65): its effect on the pipeline state is to
add the derived `total_pollution` column to `self.data`; it returns the new
state paired with `company_stats`. -/
def pollution_analysis (recs : List Record) :
    List (Record × ℚ) × List CompanyStat :=
  (recs.map (fun r => (r, totalPollution r)), companyStats recs)

/-- The fields of `self.data` consumed by the per-cluster report aggregation
(lines 87-111): entity name, the derived `total_pollution`, and the assigned
cluster label. -/
structure TracedRow where
  entity : Option String
  total : ℚ
  label : ℤ
  deriving DecidableEq

/-- The labeled pipeline state: each record paired with its derived total and
its cluster label (`self.data` after `spatial_clustering` and
`pollution_analysis`). -/
def tracedRows (recs : List Record) (labels : List ℤ) : List TracedRow :=
  List.zipWith (fun r l => ⟨r.entity, totalPollution r, l⟩) recs labels

/-- The distinct cluster labels in ascending order (`np.unique`, and likewise
the group keys of `groupby('cluster')`). -/
def uniqueLabels (rows : List TracedRow) : List ℤ :=
  ((rows.map TracedRow.label).toFinset).sort (· ≤ ·)

/-- The members of one cluster group, in input order. -/
def clusterGroup (rows : List TracedRow) (c : ℤ) : List TracedRow :=
  rows.filter (fun r => r.label = c)

/-- `cluster_info` (lines 87-90): `groupby('cluster')` over all labels —
including -1 — with the pandas `'count'` of the entity-name column (which
counts non-missing cells) and the `NaN`-skipping sum of `total_pollution`. -/
def clusterInfo (rows : List TracedRow) : List (ℤ × ℕ × ℚ) :=
  (uniqueLabels rows).map (fun c =>
    (c, (clusterGroup rows c).countP (fun r => r.entity.isSome),
      ((clusterGroup rows c).map TracedRow.total).sum))

/-- One detailed cluster block of section 2.2 of the report (lines 98-111). -/
structure ClusterDetail where
  id : ℤ
  size : ℕ
  total : ℚ
  top : List TracedRow
  deriving DecidableEq

/-- The detailed per-cluster aggregates (lines 98-111): for every unique label
except -1, the member count, the summed `total_pollution`, and the first five
members after sorting descending by `total_pollution`. -/
def clusterDetails (rows : List TracedRow) : List ClusterDetail :=
  ((uniqueLabels rows).filter (fun c => c ≠ -1)).map (fun c =>
    { id := c
      size := (clusterGroup rows c).length
      total := ((clusterGroup rows c).map TracedRow.total).sum
      top := (sortDescBy TracedRow.total (clusterGroup rows c)).take 5 })

/-- Squared Euclidean distance between two planar points.  DBSCAN compares
distances against `eps` only, so we work with squared distances against
`eps ^ 2` throughout and never take square roots. -/
def sqDist (p r : ℚ × ℚ) : ℚ :=
  (p.1 - r.1) ^ 2 + (p.2 - r.2) ^ 2

/-- The squared-distance table of a concrete list of points. -/
def euclidSqDist (pts : List (ℚ × ℚ)) (i j : ℕ) : ℚ :=
  sqDist (pts.getD i (0, 0)) (pts.getD j (0, 0))

/-- Arithmetic mean of a list (0 for the empty list, as `0 / 0 = 0` in `ℚ`). -/
def listMean (xs : List ℚ) : ℚ :=
  xs.sum / xs.length

/-- Population variance, as `StandardScaler` computes it. -/
def popVar (xs : List ℚ) : ℚ :=
  ((xs.map (fun x => (x - listMean xs) ^ 2)).sum) / xs.length

/-- Squared distance between two points after `StandardScaler`: scaling each
dimension by `1 / std` turns the squared coordinate difference into
`(Δx)² / var`; a zero-variance dimension keeps scale 1 (sklearn replaces a
zero scale by 1), contributing `(Δx)² / 1 = 0`. -/
def stdSqDist (pts : List (ℚ × ℚ)) (i j : ℕ) : ℚ :=
  let vx := popVar (pts.map Prod.fst)
  let vy := popVar (pts.map Prod.snd)
  let dx := (pts.getD i (0, 0)).1 - (pts.getD j (0, 0)).1
  let dy := (pts.getD i (0, 0)).2 - (pts.getD j (0, 0)).2
  dx ^ 2 / (if vx = 0 then 1 else vx) + dy ^ 2 / (if vy = 0 then 1 else vy)

/-- The `eps`-neighborhood of point `i` among the `n` points, by index
(`d` is the squared-distance table, `q` the squared radius).  The point
itself is a member whenever `d i i ≤ q`. -/
def nbhd (d : ℕ → ℕ → ℚ) (q : ℚ) (n i : ℕ) : Finset ℕ :=
  (Finset.range n).filter (fun j => d i j ≤ q)

/-- Core point: at least `min_samples` points (itself included) within
distance `eps`. -/
def isCore (d : ℕ → ℕ → ℚ) (q : ℚ) (minPts n i : ℕ) : Bool :=
  minPts ≤ (nbhd d q n i).card

/-- The set of core points. -/
def coreSet (d : ℕ → ℕ → ℚ) (q : ℚ) (minPts n : ℕ) : Finset ℕ :=
  (Finset.range n).filter (fun i => isCore d q minPts n i)

/-- One breadth step of cluster expansion: add every core point within `eps`
of the current set. -/
def growStep (d : ℕ → ℕ → ℚ) (q : ℚ) (minPts n : ℕ) (s : Finset ℕ) :
    Finset ℕ :=
  s ∪ (coreSet d q minPts n).filter (fun j => ∃ i ∈ s, d i j ≤ q)

/-- The cores density-reachable from point `i`: `n` breadth steps reach the
fixpoint, since each step either adds a point of `range n` or stabilizes. -/
def reachSet (d : ℕ → ℕ → ℚ) (q : ℚ) (minPts n : ℕ) (i : ℕ) : Finset ℕ :=
  (growStep d q minPts n)^[n] {i}

/-- The component identifier of a core point: the least core index reachable
from it.  The cluster seeded first in the input-order scan is exactly the one
whose component holds the least core index. -/
def compId (d : ℕ → ℕ → ℚ) (q : ℚ) (minPts n i : ℕ) : ℕ :=
  ((reachSet d q minPts n i).min).untop' 0

/-- The component identifiers in ascending order; the position of a component
identifier in this list is the cluster number DBSCAN assigns in discovery
order. -/
def seedList (d : ℕ → ℕ → ℚ) (q : ℚ) (minPts n : ℕ) : List ℕ :=
  ((coreSet d q minPts n).image (compId d q minPts n)).sort (· ≤ ·)

/-- The core points within `eps` of point `j`. -/
def coreNbrs (d : ℕ → ℕ → ℚ) (q : ℚ) (minPts n j : ℕ) : Finset ℕ :=
  (nbhd d q n j).filter (fun i => isCore d q minPts n i)

/-- The DBSCAN label of point `j`: a core point carries its component's
cluster number; a border point (non-core, but within `eps` of a core point)
carries the number of the first-discovered cluster among those reaching it;
every other point is noise, labeled -1. -/
def labelOf (d : ℕ → ℕ → ℚ) (q : ℚ) (minPts n j : ℕ) : ℤ :=
  if isCore d q minPts n j then
    ((seedList d q minPts n).indexOf (compId d q minPts n j) : ℤ)
  else if coreNbrs d q minPts n j = ∅ then
    -1
  else
    ((seedList d q minPts n).indexOf
      ((((coreNbrs d q minPts n j).image (compId d q minPts n)).min).untop' 0) : ℤ)

/-- `DBSCAN(eps, min_samples).fit_predict` on `n` points with squared-distance
table `d` and squared radius `q`: the labels in input order. -/
def dbscan (d : ℕ → ℕ → ℚ) (q : ℚ) (minPts n : ℕ) : List ℤ :=
  (List.range n).map (labelOf d q minPts n)

/-- Number of noise labels in a label list. -/
def noiseCount (ls : List ℤ) : ℕ :=
  ls.count (-1)

/-- The distinct non-noise cluster identifiers of a label list. -/
def clusterIds (ls : List ℤ) : List ℤ :=
  (ls.filter (fun c => 0 ≤ c)).dedup

/-- `spatial_clustering` (lines 34-45): take the longitude/latitude columns,
standardize them, and run `DBSCAN(eps=0.3, min_samples=3)`.  On an empty
record set, `StandardScaler.fit_transform`'s input validation (`check_array`
with `ensure_min_samples=1`) raises `ValueError` for the 0-sample array.  A
missing coordinate is `NaN`: `StandardScaler` propagates it and `DBSCAN.fit`'s
input validation then raises `ValueError`, so the run also aborts whenever
any record lacks a coordinate. -/
def spatial_clustering (recs : List Record) : Except String (List ℤ) :=
  if recs.isEmpty then
    Except.error "Found array with 0 sample(s)"
  else if recs.any (fun r => r.lon.isNone || r.lat.isNone) then
    Except.error "Input contains NaN"
  else
    let pts := recs.map (fun r => (r.lon.getD 0, r.lat.getD 0))
    Except.ok (dbscan (stdSqDist pts) (9 / 100) 3 pts.length)

deriving instance DecidableEq for Except

/-- Concrete counterexample input for the radius-monotonicity claim: eight
points with integer coordinates.  With `min_samples = 4`, at squared radius
400 (radius 20) the points with indices 3..7 form one five-member cluster and
indices 0..2 are noise; at squared radius 900 (radius 30) index 0 becomes a
core point whose cluster is discovered first and captures the border point
with index 4, leaving two four-member clusters. -/
def borderStealPts : List (ℚ × ℚ) :=
  [(0, -24), (0, -50), (10, -48), (20, 0), (0, 0), (40, 0), (38, 8), (30, 17)]

/-! ### Theorems -/

/-- Claim C1: for every record, the derived `total_pollution` equals the sum
of the four pollutant-load fields with each missing field contributing 0; in
particular, when all four fields are missing, `total_pollution = 0`. -/
theorem totalPollution_eq_sum_of_loads (r : Record) :
    totalPollution r =
      r.mainPoll.getD 0 + r.ammonia.getD 0 + r.phosphorus.getD 0 +
        r.nitrogen.getD 0 ∧
    ((r.mainPoll = none ∧ r.ammonia = none ∧ r.phosphorus = none ∧
        r.nitrogen = none) → totalPollution r = 0) := by
  constructor
  · rcases r with ⟨e, t, lon, lat, w, mp, am, ph, ni⟩
    rcases mp with _ | a <;> rcases am with _ | b <;> rcases ph with _ | c <;>
      rcases ni with _ | d <;> simp [totalPollution, nanSum] <;> ring
  · rintro ⟨h1, h2, h3, h4⟩
    simp [totalPollution, nanSum, h1, h2, h3, h4]

/-- Witness for C1: a record with all four pollutant-load fields missing has
`total_pollution = 0`. -/
theorem totalPollution_eq_sum_of_loads_witness :
    totalPollution ⟨some "E", none, none, none, none, none, none, none, none⟩
      = 0 :=
  (totalPollution_eq_sum_of_loads _).2 ⟨rfl, rfl, rfl, rfl⟩

/-- Claim C9: preprocessing keeps every row (same length, row `i` of the
output comes from row `i` of the input), and each numeric field of a row is
parsed independently by `pd.to_numeric(errors='coerce')` — so an unparseable
value becomes the missing marker for that field only, while the categorical
fields pass through; no row is dropped and no error is raised (the embedding
is a total function). -/
theorem preprocess_keeps_rows_and_parses_fieldwise (rows : List RawRow) :
    (preprocess rows).length = rows.length ∧
    (∀ i : ℕ, (preprocess rows)[i]? = (rows[i]?).map preprocessRow) ∧
    (∀ row : RawRow,
      (preprocessRow row).entity = row.entity ∧
      (preprocessRow row).outletType = row.outletType ∧
      (preprocessRow row).lon = toNumeric row.lon ∧
      (preprocessRow row).lat = toNumeric row.lat ∧
      (preprocessRow row).wastewater = toNumeric row.wastewater ∧
      (preprocessRow row).mainPoll = toNumeric row.mainPoll ∧
      (preprocessRow row).ammonia = toNumeric row.ammonia ∧
      (preprocessRow row).phosphorus = toNumeric row.phosphorus ∧
      (preprocessRow row).nitrogen = toNumeric row.nitrogen) := by
  refine ⟨by simp [preprocess], fun i => ?_, fun row => ?_⟩
  · simp [preprocess]
  · exact ⟨rfl, rfl, rfl, rfl, rfl, rfl, rfl, rfl, rfl⟩

/-- Claim C2: the code does not exclude records with a missing coordinate.
`StandardScaler` propagates the `NaN` and `DBSCAN.fit` rejects it, so
whenever any record lacks a longitude or a latitude the whole clustering run
aborts with `ValueError` instead of labeling those records -1. -/
theorem spatial_clustering_raises_on_missing_coordinate
    (recs : List Record) (h : ∃ r ∈ recs, r.lon = none ∨ r.lat = none) :
    spatial_clustering recs = Except.error "Input contains NaN" := by
  obtain ⟨r, hr, hcase⟩ := h
  have hemp : recs.isEmpty = false := by
    cases recs with
    | nil => cases hr
    | cons a t => rfl
  have hany : recs.any (fun r => r.lon.isNone || r.lat.isNone) = true := by
    rw [List.any_eq_true]
    exact ⟨r, hr, by rcases hcase with h | h <;> simp [h]⟩
  simp [spatial_clustering, hemp, hany]

/-- Witness for C2: a single record with a missing longitude makes the
clustering call raise. -/
theorem spatial_clustering_raises_on_missing_coordinate_witness :
    spatial_clustering
        [⟨some "E", some "t", none, some 7, none, none, none, none, none⟩] =
      Except.error "Input contains NaN" :=
  spatial_clustering_raises_on_missing_coordinate _
    ⟨_, List.mem_singleton_self _, Or.inl rfl⟩

/-- Claim C7: the aggregations do not alter the record set.
`pollution_analysis` only adds the derived `total_pollution` column: stripping
it recovers the input exactly (every field of every record unchanged, same
length), and the entity aggregate it returns is a pure function of that
unchanged record list.  The cluster aggregations of the report are likewise
pure functions from the labeled rows to fresh structures. -/
theorem pollution_analysis_preserves_records (recs : List Record) :
    ((pollution_analysis recs).1).map Prod.fst = recs ∧
    ((pollution_analysis recs).1).length = recs.length ∧
    (pollution_analysis recs).2 = companyStats recs := by
  refine ⟨?_, ?_, rfl⟩
  · show (recs.map (fun r => (r, totalPollution r))).map Prod.fst = recs
    rw [List.map_map]
    exact List.map_id recs
  · simp [pollution_analysis]

/-! ### DBSCAN lemmas -/

/-- A neighborhood grows with the squared radius. -/
theorem nbhd_subset_of_le {d : ℕ → ℕ → ℚ} {q1 q2 : ℚ} (h : q1 ≤ q2)
    (n i : ℕ) : nbhd d q1 n i ⊆ nbhd d q2 n i := by
  intro j hjmem
  simp only [nbhd, Finset.mem_filter, Finset.mem_range] at hjmem ⊢
  exact ⟨hjmem.1, le_trans hjmem.2 h⟩

/-- A core point stays core when the squared radius grows. -/
theorem isCore_mono {d : ℕ → ℕ → ℚ} {q1 q2 : ℚ} (h : q1 ≤ q2)
    {minPts n i : ℕ} (hc : isCore d q1 minPts n i) :
    isCore d q2 minPts n i := by
  simp only [isCore, decide_eq_true_eq] at hc ⊢
  exact le_trans hc (Finset.card_le_card (nbhd_subset_of_le h n i))

/-- The set of core points within reach of a point grows with the radius. -/
theorem coreNbrs_subset_of_le {d : ℕ → ℕ → ℚ} {q1 q2 : ℚ} (h : q1 ≤ q2)
    {minPts n j : ℕ} :
    coreNbrs d q1 minPts n j ⊆ coreNbrs d q2 minPts n j := by
  intro i hi
  simp only [coreNbrs, Finset.mem_filter] at hi ⊢
  exact ⟨nbhd_subset_of_le h n j hi.1, isCore_mono h hi.2⟩

/-- A point is labeled noise exactly when no core point lies within `eps` of
it (assuming the point is in range and its self-distance is within the
radius). -/
theorem labelOf_eq_neg_one_iff {d : ℕ → ℕ → ℚ} {q : ℚ} {minPts n j : ℕ}
    (hj : j < n) (hdj : d j j ≤ q) :
    (labelOf d q minPts n j = -1 ↔ coreNbrs d q minPts n j = ∅) := by
  have hnonneg : ∀ m : ℕ, ((m : ℤ) = -1) ↔ False := fun m =>
    iff_false_intro (by omega)
  by_cases hc : isCore d q minPts n j
  · have hjmem : j ∈ coreNbrs d q minPts n j := by
      simp only [coreNbrs, nbhd, Finset.mem_filter, Finset.mem_range]
      exact ⟨⟨hj, hdj⟩, hc⟩
    have hne : coreNbrs d q minPts n j ≠ ∅ := by
      intro hemp
      rw [hemp] at hjmem
      exact absurd hjmem (Finset.not_mem_empty j)
    simp [labelOf, hc, hne, hnonneg]
  · by_cases he : coreNbrs d q minPts n j = ∅
    · simp [labelOf, hc, he]
    · simp [labelOf, hc, he, hnonneg]

/-- A point is at squared Euclidean distance 0 from itself. -/
theorem euclidSqDist_self (pts : List (ℚ × ℚ)) (j : ℕ) :
    euclidSqDist pts j j = 0 := by
  simp [euclidSqDist, sqDist]

/-- Claim C8 (amended): with `min_samples` fixed, enlarging the neighborhood
radius never increases the number of noise-labeled records.  (The per-cluster
size half of the claim is refuted by `eps_monotonicity_counterexample`.) -/
theorem noise_count_antitone_in_radius (pts : List (ℚ × ℚ)) (q1 q2 : ℚ)
    (minPts : ℕ) (h0 : 0 ≤ q1) (h12 : q1 ≤ q2) :
    noiseCount (dbscan (euclidSqDist pts) q2 minPts pts.length) ≤
      noiseCount (dbscan (euclidSqDist pts) q1 minPts pts.length) := by
  unfold noiseCount dbscan
  rw [List.count_eq_countP, List.count_eq_countP, List.countP_map,
    List.countP_map]
  apply List.countP_mono_left
  intro j hj hP
  have hj' : j < pts.length := List.mem_range.mp hj
  have hd1 : euclidSqDist pts j j ≤ q1 := by
    rw [euclidSqDist_self]; exact h0
  have hd2 : euclidSqDist pts j j ≤ q2 := le_trans hd1 h12
  simp only [Function.comp_apply, beq_iff_eq] at hP ⊢
  rw [labelOf_eq_neg_one_iff hj' hd2] at hP
  rw [labelOf_eq_neg_one_iff hj' hd1]
  have hsub : coreNbrs (euclidSqDist pts) q1 minPts pts.length j ⊆ ∅ := by
    rw [← hP]
    exact coreNbrs_subset_of_le h12
  exact Finset.subset_empty.mp hsub

/-- Witness for the amended C8 at the concrete eight-point input. -/
theorem noise_count_antitone_in_radius_witness :
    noiseCount
        (dbscan (euclidSqDist borderStealPts) 900 4 borderStealPts.length) ≤
      noiseCount
        (dbscan (euclidSqDist borderStealPts) 400 4 borderStealPts.length) :=
  noise_count_antitone_in_radius borderStealPts 400 900 4 (by norm_num)
    (by norm_num)

set_option maxRecDepth 100000 in
/-- Counterexample to claim C8 as stated: on `borderStealPts` with
`min_samples = 4` and squared radii 400 < 900 (radii 20 < 30), the cluster of
size 5 obtained at the smaller radius is strictly larger than every cluster
obtained at the larger radius — the border point at index 4 is captured by
the competing cluster discovered first — so the conjunction claimed (cluster
sizes never decrease, noise never increases) fails even though its noise half
holds here (3 noise points shrink to 0). -/
theorem eps_monotonicity_counterexample :
    dbscan (euclidSqDist borderStealPts) 400 4 8 =
        [-1, -1, -1, 0, 0, 0, 0, 0] ∧
    dbscan (euclidSqDist borderStealPts) 900 4 8 =
        [0, 0, 0, 1, 0, 1, 1, 1] ∧
    ¬ ((∀ c ∈ clusterIds (dbscan (euclidSqDist borderStealPts) 400 4 8),
          ∃ c' ∈ clusterIds (dbscan (euclidSqDist borderStealPts) 900 4 8),
            (dbscan (euclidSqDist borderStealPts) 400 4 8).count c ≤
              (dbscan (euclidSqDist borderStealPts) 900 4 8).count c') ∧
        noiseCount (dbscan (euclidSqDist borderStealPts) 900 4 8) ≤
          noiseCount (dbscan (euclidSqDist borderStealPts) 400 4 8)) := by
  with_unfolding_all decide

/-- With fewer points than `min_samples`, no point can be core (even a full
neighborhood has fewer than `min_samples` members), so every point is
noise. -/
theorem dbscan_all_noise_of_few (d : ℕ → ℕ → ℚ) (q : ℚ) {minPts n : ℕ}
    (h : n < minPts) : dbscan d q minPts n = List.replicate n (-1) := by
  have hcore : ∀ i, isCore d q minPts n i = false := by
    intro i
    simp only [isCore, decide_eq_false_iff_not, not_le]
    calc (nbhd d q n i).card
        ≤ (Finset.range n).card := Finset.card_le_card (Finset.filter_subset _ _)
      _ = n := Finset.card_range n
      _ < minPts := h
  have hlab : ∀ j ∈ List.range n, labelOf d q minPts n j = -1 := by
    intro j _
    have hemp : coreNbrs d q minPts n j = ∅ := by
      apply Finset.filter_eq_empty_iff.mpr
      intro i _
      simp [hcore i]
    simp [labelOf, hcore j, hemp]
  unfold dbscan
  rw [List.map_congr_left hlab, List.map_const', List.length_range]

/-- When every pairwise squared distance is 0 (all points coincide) and there
are at least `min_samples ≥ 1` points, every point is core, the whole range is
one density-connected component with identifier 0, and DBSCAN returns a single
cluster 0 containing every point. -/
theorem dbscan_const_zero (d : ℕ → ℕ → ℚ) (q : ℚ) {minPts n : ℕ}
    (hm : 1 ≤ minPts) (hn : minPts ≤ n) (hq : 0 ≤ q)
    (hd : ∀ i < n, ∀ j < n, d i j = 0) :
    dbscan d q minPts n = List.replicate n 0 := by
  have hn0 : 0 < n := by omega
  have hnb : ∀ i < n, nbhd d q n i = Finset.range n := by
    intro i hi
    unfold nbhd
    apply Finset.filter_true_of_mem
    intro j hj
    rw [hd i hi j (Finset.mem_range.mp hj)]
    exact hq
  have hcore : ∀ i < n, isCore d q minPts n i = true := by
    intro i hi
    simp only [isCore, decide_eq_true_eq, hnb i hi, Finset.card_range]
    exact hn
  have hcs : coreSet d q minPts n = Finset.range n := by
    unfold coreSet
    apply Finset.filter_true_of_mem
    intro i hi
    exact hcore i (Finset.mem_range.mp hi)
  have hgrow : ∀ s : Finset ℕ, s.Nonempty → s ⊆ Finset.range n →
      growStep d q minPts n s = Finset.range n := by
    intro s hne hsub
    obtain ⟨i0, hi0⟩ := hne
    have hi0n : i0 < n := Finset.mem_range.mp (hsub hi0)
    unfold growStep
    rw [hcs]
    rw [Finset.filter_true_of_mem]
    · exact Finset.union_eq_right.mpr hsub
    · intro j hj
      exact ⟨i0, hi0, by rw [hd i0 hi0n j (Finset.mem_range.mp hj)]; exact hq⟩
  have hfix : growStep d q minPts n (Finset.range n) = Finset.range n :=
    hgrow _ ⟨0, Finset.mem_range.mpr hn0⟩ (Finset.Subset.refl _)
  have hreach : ∀ i < n, reachSet d q minPts n i = Finset.range n := by
    intro i hi
    unfold reachSet
    obtain ⟨k, rfl⟩ : ∃ k, n = k + 1 := ⟨n - 1, by omega⟩
    rw [Function.iterate_succ_apply]
    rw [hgrow {i} (Finset.singleton_nonempty i)
      (Finset.singleton_subset_iff.mpr (Finset.mem_range.mpr hi))]
    exact Function.iterate_fixed hfix _
  have hcomp : ∀ i < n, compId d q minPts n i = 0 := by
    intro i hi
    unfold compId
    rw [hreach i hi]
    obtain ⟨b, hb⟩ := Finset.min_of_mem (Finset.mem_range.mpr hn0)
    have hble : (Finset.range n).min ≤ ((0 : ℕ) : WithTop ℕ) :=
      Finset.min_le (Finset.mem_range.mpr hn0)
    rw [hb] at hble
    have hb0 : b = 0 := Nat.le_zero.mp (WithTop.coe_le_coe.mp hble)
    rw [hb, hb0, WithTop.untop'_coe]
  have hseed : seedList d q minPts n = [0] := by
    unfold seedList
    rw [hcs]
    have heqon : Set.EqOn (compId d q minPts n) (fun _ => (0 : ℕ))
        (Finset.range n) := by
      intro i hi
      exact hcomp i (Finset.mem_range.mp (Finset.mem_coe.mp hi))
    rw [Finset.image_congr heqon,
      Finset.image_const ⟨0, Finset.mem_range.mpr hn0⟩ 0]
    exact Finset.sort_singleton _ 0
  have hlab : ∀ j ∈ List.range n, labelOf d q minPts n j = 0 := by
    intro j hj
    have hjn := List.mem_range.mp hj
    simp [labelOf, hcore j hjn, hseed, hcomp j hjn]
  unfold dbscan
  rw [List.map_congr_left hlab, List.map_const', List.length_range]

/-- The standardized squared distance between two coincident points is 0:
each dimension contributes `0 ^ 2 / scale = 0` whatever the scale is. -/
theorem stdSqDist_eq_zero_of_const {pts : List (ℚ × ℚ)} {x y : ℚ}
    (h : ∀ p ∈ pts, p = (x, y)) {i j : ℕ} (hi : i < pts.length)
    (hj : j < pts.length) : stdSqDist pts i j = 0 := by
  have hpi : pts.getD i (0, 0) = (x, y) := by
    rw [List.getD_eq_getElem pts (0, 0) hi]
    exact h _ (List.getElem_mem hi)
  have hpj : pts.getD j (0, 0) = (x, y) := by
    rw [List.getD_eq_getElem pts (0, 0) hj]
    exact h _ (List.getElem_mem hj)
  simp only [stdSqDist, hpi, hpj]
  simp

set_option maxRecDepth 100000 in
/-- Counterexample to claim C3 as stated: three records at the same location
(all coordinate points identical) are clustered into a single cluster 0 with
no noise, not into zero clusters with every record labeled -1. -/
theorem identical_points_counterexample :
    spatial_clustering
        [⟨some "E", some "t", some 5, some 7, none, none, none, none, none⟩,
         ⟨some "E", some "t", some 5, some 7, none, none, none, none, none⟩,
         ⟨some "E", some "t", some 5, some 7, none, none, none, none, none⟩] =
      Except.ok [0, 0, 0] ∧
    ([0, 0, 0] : List ℤ) ≠ List.replicate 3 (-1) := by
  with_unfolding_all decide

/-- Claim C3 (amended): the empty record set raises (`StandardScaler` rejects
a 0-sample array); a nonempty record set with every coordinate present and
fewer records than `min_samples = 3` yields all-noise labels without an
error; but when all coordinate points are identical and there are at least
`min_samples` records, every point is a core point at distance 0 from every
other, so clustering returns one cluster 0 containing every record and no
noise (still without an error) — not zero clusters. -/
theorem degenerate_clustering_amended :
    spatial_clustering [] = Except.error "Found array with 0 sample(s)" ∧
    (∀ recs : List Record, recs ≠ [] →
      (∀ r ∈ recs, r.lon.isSome ∧ r.lat.isSome) → recs.length < 3 →
        spatial_clustering recs =
          Except.ok (List.replicate recs.length (-1))) ∧
    (∀ (recs : List Record) (x y : ℚ),
      (∀ r ∈ recs, r.lon = some x ∧ r.lat = some y) → 3 ≤ recs.length →
        spatial_clustering recs = Except.ok (List.replicate recs.length 0)) := by
  refine ⟨rfl, ?_, ?_⟩
  · intro recs hne h hlen
    have hemp : recs.isEmpty = false := by
      cases recs with
      | nil => exact absurd rfl hne
      | cons a t => rfl
    have hany : recs.any (fun r => r.lon.isNone || r.lat.isNone) = false := by
      rw [List.any_eq_false]
      intro r hr
      obtain ⟨h1, h2⟩ := h r hr
      obtain ⟨a, ha⟩ := Option.isSome_iff_exists.mp h1
      obtain ⟨b, hb⟩ := Option.isSome_iff_exists.mp h2
      simp [ha, hb]
    simp only [spatial_clustering, hemp, hany, Bool.false_eq_true, if_false,
      Except.ok.injEq]
    rw [dbscan_all_noise_of_few _ _ (by rw [List.length_map]; exact hlen),
      List.length_map]
  · intro recs x y h hlen
    have hemp : recs.isEmpty = false := by
      cases recs with
      | nil => simp at hlen
      | cons a t => rfl
    have hany : recs.any (fun r => r.lon.isNone || r.lat.isNone) = false := by
      rw [List.any_eq_false]
      intro r hr
      obtain ⟨h1, h2⟩ := h r hr
      simp [h1, h2]
    have hpts : ∀ p ∈ recs.map (fun r => (r.lon.getD 0, r.lat.getD 0)),
        p = (x, y) := by
      intro p hp
      obtain ⟨r, hr, rfl⟩ := List.mem_map.mp hp
      obtain ⟨h1, h2⟩ := h r hr
      rw [h1, h2]
      rfl
    have hd0 : ∀ i < (recs.map (fun r => (r.lon.getD 0, r.lat.getD 0))).length,
        ∀ j < (recs.map (fun r => (r.lon.getD 0, r.lat.getD 0))).length,
        stdSqDist (recs.map (fun r => (r.lon.getD 0, r.lat.getD 0))) i j = 0 :=
      fun i hi j hj => stdSqDist_eq_zero_of_const hpts hi hj
    simp only [spatial_clustering, hemp, hany, Bool.false_eq_true, if_false,
      Except.ok.injEq]
    rw [dbscan_const_zero _ _ (by norm_num)
      (by rw [List.length_map]; exact hlen) (by norm_num) hd0,
      List.length_map]

/-- Witness for the amended C3: a single record (fewer than `min_samples`)
comes back as noise, and three coincident records come back as one cluster. -/
theorem degenerate_clustering_amended_witness :
    spatial_clustering
        [⟨some "E", some "t", some 1, some 2, none, none, none, none, none⟩] =
      Except.ok (List.replicate 1 (-1)) ∧
    spatial_clustering
        [⟨some "E", some "t", some 5, some 7, none, none, none, none, none⟩,
         ⟨some "F", some "u", some 5, some 7, none, none, none, none, none⟩,
         ⟨some "G", some "v", some 5, some 7, none, none, none, none, none⟩] =
      Except.ok (List.replicate 3 0) :=
  ⟨degenerate_clustering_amended.2.1 _ (List.cons_ne_nil _ _)
      (by with_unfolding_all decide) (by decide),
    degenerate_clustering_amended.2.2 _ 5 7 (by with_unfolding_all decide)
      (by decide)⟩

/-! ### Descending sort lemmas -/

/-- The descending sort is a permutation of its input. -/
theorem sortDescBy_perm (key : α → ℚ) (l : List α) : sortDescBy key l ~ l := by
  unfold sortDescBy
  calc (l.reverse.mergeSort (fun a b => decide (key a ≤ key b))).reverse
      ~ l.reverse.mergeSort (fun a b => decide (key a ≤ key b)) :=
        List.reverse_perm _
    _ ~ l.reverse := List.mergeSort_perm _ _
    _ ~ l := List.reverse_perm l

/-! ### Mode lemmas -/

/-- The fold computing the maximal frequency attains its value on a nonempty
list. -/
theorem foldr_max_mem : ∀ l : List ℕ, l ≠ [] → l.foldr max 0 ∈ l := by
  intro l
  induction l with
  | nil => intro h; exact absurd rfl h
  | cons a t ih =>
    intro _
    rw [List.foldr_cons]
    rcases max_choice a (t.foldr max 0) with h | h
    · rw [h]; exact List.mem_cons_self a t
    · rcases eq_or_ne t [] with rfl | hne
      · simp
      · rw [h]; exact List.mem_cons_of_mem a (ih hne)

/-- Every element of the list is bounded by the max fold. -/
theorem le_foldr_max : ∀ {l : List ℕ} {a : ℕ}, a ∈ l → a ≤ l.foldr max 0 := by
  intro l
  induction l with
  | nil => intro a h; cases h
  | cons b t ih =>
    intro a h
    rw [List.foldr_cons]
    rcases List.mem_cons.mp h with rfl | h'
    · exact le_max_left _ _
    · exact le_trans (ih h') (le_max_right _ _)

/-- `mode()[0]` comes back `None` exactly when every value of the series is
missing. -/
theorem modeChoice_eq_none_iff (xs : List (Option String)) :
    modeChoice xs = none ↔ xs.filterMap id = [] := by
  unfold modeChoice
  rw [List.head?_eq_none_iff]
  constructor
  · intro h
    by_contra hne
    have hd : (xs.filterMap id).dedup ≠ [] := by
      rw [Ne, List.dedup_eq_nil]
      exact hne
    have hmapne : (xs.filterMap id).dedup.map
        (fun v => (xs.filterMap id).count v) ≠ [] := by
      simpa using hd
    have hmem := foldr_max_mem _ hmapne
    obtain ⟨v, hv, hveq⟩ := List.mem_map.mp hmem
    have hvm : v ∈ seriesMode xs := by
      unfold seriesMode
      rw [List.mem_mergeSort, List.mem_filter]
      exact ⟨hv, decide_eq_true hveq⟩
    rw [h] at hvm
    exact absurd hvm (List.not_mem_nil v)
  · intro h
    unfold seriesMode
    rw [h]
    simp

/-- When `mode()[0]` returns a value, it is a most frequent value of the
series and the least such value in the sort order. -/
theorem modeChoice_is_least_mode (xs : List (Option String)) (m : String)
    (hm : modeChoice xs = some m) :
    m ∈ xs.filterMap id ∧
    (∀ v ∈ xs.filterMap id,
      (xs.filterMap id).count v ≤ (xs.filterMap id).count m) ∧
    (∀ v ∈ xs.filterMap id,
      (xs.filterMap id).count v = (xs.filterMap id).count m → m ≤ v) := by
  unfold modeChoice at hm
  have hmem : m ∈ seriesMode xs := List.mem_of_mem_head? (by rw [hm]; rfl)
  have hms : m ∈ (xs.filterMap id).dedup ∧
      (xs.filterMap id).count m = maxFreq xs := by
    unfold seriesMode at hmem
    rw [List.mem_mergeSort, List.mem_filter] at hmem
    exact ⟨hmem.1, of_decide_eq_true hmem.2⟩
  have hcount_le : ∀ v ∈ xs.filterMap id,
      (xs.filterMap id).count v ≤ (xs.filterMap id).count m := by
    intro v hv
    rw [hms.2]
    exact le_foldr_max (List.mem_map_of_mem _ (List.mem_dedup.mpr hv))
  refine ⟨List.mem_dedup.mp hms.1, hcount_le, ?_⟩
  intro v hv hveq
  have hvfilter : v ∈ seriesMode xs := by
    unfold seriesMode
    rw [List.mem_mergeSort, List.mem_filter]
    exact ⟨List.mem_dedup.mpr hv, decide_eq_true (by rw [hveq, hms.2])⟩
  have hsorted : (seriesMode xs).Pairwise
      (fun a b => (decide (a ≤ b) : Bool)) := by
    unfold seriesMode
    exact List.sorted_mergeSort
      (by
        intro a b c hab hbc
        simp only [decide_eq_true_eq] at *
        exact le_trans hab hbc)
      (by
        intro a b
        simp only [Bool.or_eq_true, decide_eq_true_eq]
        exact le_total a b)
      _
  cases hsm : seriesMode xs with
  | nil =>
    rw [hsm] at hmem
    exact absurd hmem (List.not_mem_nil m)
  | cons h0 t =>
    rw [hsm] at hm
    have hm0 : h0 = m := by
      simp only [List.head?_cons, Option.some.injEq] at hm
      exact hm
    rw [hsm, hm0] at hvfilter hsorted
    rcases List.mem_cons.mp hvfilter with rfl | hvt
    · exact le_refl v
    · exact of_decide_eq_true (List.rel_of_pairwise_cons hsorted hvt)

/-- Membership in `company_stats` comes from an entity key. -/
theorem companyStats_mem {recs : List Record} {st : CompanyStat}
    (hst : st ∈ companyStats recs) :
    ∃ k ∈ entityKeys recs, st = mkCompanyStat recs k := by
  unfold companyStats at hst
  have hst' := (sortDescBy_perm CompanyStat.total
    ((entityKeys recs).map (mkCompanyStat recs))).mem_iff.mp hst
  obtain ⟨k, hk, heq⟩ := List.mem_map.mp hst'
  exact ⟨k, hk, heq.symm⟩

set_option maxRecDepth 100000 in
/-- Counterexample to claim C4 as stated: for an entity whose two records
carry the tied outlet types "b" then "a", the aggregation lambda returns
`mode()[0] = "a"` (pandas returns the tied modes sorted ascending), while the
first-encountered tie-break demanded by the claim would return "b". -/
theorem mode_tie_counterexample :
    (companyStats
        [⟨some "E", some "b", none, none, none, none, none, none, none⟩,
         ⟨some "E", some "a", none, none, none, none, none, none, none⟩]).map
        CompanyStat.dominant = [some "a"] ∧
    specFirstEncounteredMode
        ((entityGroup
            [⟨some "E", some "b", none, none, none, none, none, none, none⟩,
             ⟨some "E", some "a", none, none, none, none, none, none, none⟩]
            "E").map Record.outletType) = some "b" ∧
    (some "a" : Option String) ≠ some "b" := by
  with_unfolding_all decide

/-- Claim C4 (amended): the dominant outlet type of every `company_stats` row
is `mode()[0]` of its group's outlet-type column: a most frequent
non-missing category, and when several categories tie for most frequent, the
least in the sort order (pandas sorts the modes) — not the first-encountered
category. -/
theorem dominant_outlet_is_least_mode (recs : List Record) (st : CompanyStat)
    (hst : st ∈ companyStats recs) :
    st.dominant =
      modeChoice ((entityGroup recs st.name).map Record.outletType) ∧
    ((∀ r ∈ entityGroup recs st.name, r.outletType = none) →
      st.dominant = none) ∧
    (∀ m, st.dominant = some m →
      m ∈ ((entityGroup recs st.name).map Record.outletType).filterMap id ∧
      (∀ v ∈ ((entityGroup recs st.name).map Record.outletType).filterMap id,
        (((entityGroup recs st.name).map Record.outletType).filterMap
            id).count v ≤
          (((entityGroup recs st.name).map Record.outletType).filterMap
            id).count m) ∧
      (∀ v ∈ ((entityGroup recs st.name).map Record.outletType).filterMap id,
        (((entityGroup recs st.name).map Record.outletType).filterMap
            id).count v =
          (((entityGroup recs st.name).map Record.outletType).filterMap
            id).count m → m ≤ v)) := by
  obtain ⟨k, hk, rfl⟩ := companyStats_mem hst
  refine ⟨rfl, ?_, ?_⟩
  · intro hall
    show modeChoice ((entityGroup recs k).map Record.outletType) = none
    apply (modeChoice_eq_none_iff _).mpr
    apply List.filterMap_eq_nil_iff.mpr
    intro o ho
    obtain ⟨r', hr', rfl⟩ := List.mem_map.mp ho
    exact hall r' hr'
  · intro m hm
    exact modeChoice_is_least_mode _ m hm

/-- Witness for the amended C4 at the tied two-record input: the dominant
category "a" is a most frequent category and the least of the tied modes. -/
theorem dominant_outlet_is_least_mode_witness :
    CompanyStat.dominant ⟨"E", 0, 0, some "a"⟩ =
      modeChoice
        ((entityGroup
            [⟨some "E", some "b", none, none, none, none, none, none, none⟩,
             ⟨some "E", some "a", none, none, none, none, none, none, none⟩]
            "E").map Record.outletType) :=
  (dominant_outlet_is_least_mode
    [⟨some "E", some "b", none, none, none, none, none, none, none⟩,
     ⟨some "E", some "a", none, none, none, none, none, none, none⟩]
    ⟨"E", 0, 0, some "a"⟩ (by with_unfolding_all decide)).1

/-- Claim C10: an entity all of whose records lack an outlet-type category
still receives an aggregate row, with its dominant category the explicit
missing marker `None` (the aggregation lambda guards the empty mode), and no
error is raised. -/
theorem entity_with_all_missing_outlet_aggregated (recs : List Record)
    (e : String) (hmem : ∃ r ∈ recs, r.entity = some e)
    (hall : ∀ r ∈ recs, r.entity = some e → r.outletType = none) :
    ∃ st ∈ companyStats recs, st.name = e ∧ st.dominant = none := by
  obtain ⟨r, hr, hre⟩ := hmem
  have he : e ∈ entityKeys recs := by
    unfold entityKeys
    rw [List.mem_mergeSort, List.mem_dedup]
    exact List.mem_filterMap.mpr ⟨r, hr, hre⟩
  refine ⟨mkCompanyStat recs e, ?_, rfl, ?_⟩
  · unfold companyStats
    rw [(sortDescBy_perm _ _).mem_iff]
    exact List.mem_map_of_mem _ he
  · show modeChoice ((entityGroup recs e).map Record.outletType) = none
    apply (modeChoice_eq_none_iff _).mpr
    apply List.filterMap_eq_nil_iff.mpr
    intro o ho
    obtain ⟨r', hr', rfl⟩ := List.mem_map.mp ho
    have hr'' := List.mem_filter.mp hr'
    exact hall r' hr''.1 (of_decide_eq_true hr''.2)

/-- Witness for C10: a single record whose outlet type is missing still
yields an aggregate row for its entity, with dominant category `None`. -/
theorem entity_with_all_missing_outlet_aggregated_witness :
    ∃ st ∈ companyStats
        [⟨some "E", none, none, none, none, none, none, none, none⟩],
      st.name = "E" ∧ st.dominant = none :=
  entity_with_all_missing_outlet_aggregated
    [⟨some "E", none, none, none, none, none, none, none, none⟩] "E"
    ⟨⟨some "E", none, none, none, none, none, none, none, none⟩,
      List.mem_singleton_self _, rfl⟩
    (by
      intro r hr _
      rw [List.mem_singleton.mp hr])

/-! ### Cluster aggregation lemmas -/

/-- Sorting a filtered finset of labels gives the filtered sorted list. -/
theorem sort_filter_comm (s : Finset ℤ) (p : ℤ → Bool) :
    (s.filter (fun c => p c)).sort (· ≤ ·) = (s.sort (· ≤ ·)).filter p := by
  refine @List.eq_of_perm_of_sorted ℤ (· ≤ ·) _ _ _ ?_ ?_ ?_
  · apply List.perm_of_nodup_nodup_toFinset_eq
    · exact Finset.sort_nodup _ _
    · exact (Finset.sort_nodup _ _).filter p
    · ext a
      simp only [List.mem_toFinset, Finset.mem_sort, Finset.mem_filter,
        List.mem_filter]
  · exact Finset.sort_sorted _ _
  · exact List.Pairwise.sublist (List.filter_sublist _) (Finset.sort_sorted _ _)

/-- Dropping the noise rows keeps exactly the non-noise labels, in order. -/
theorem uniqueLabels_filter (rows : List TracedRow) :
    uniqueLabels (rows.filter (fun r => r.label ≠ -1)) =
      (uniqueLabels rows).filter (fun c => c ≠ -1) := by
  unfold uniqueLabels
  have hmap : (rows.filter (fun r => r.label ≠ -1)).map TracedRow.label =
      (rows.map TracedRow.label).filter (fun c => c ≠ -1) := by
    rw [List.filter_map]
    rfl
  rw [hmap, List.toFinset_filter]
  exact sort_filter_comm _ _

/-- Claim C5 (amended): the detailed per-cluster aggregates (lines 98-111)
are produced only for labels other than -1, and noise rows contribute to none
of them (dropping the noise rows leaves the aggregates unchanged); however
the summary table `cluster_info` (lines 87-90) carries one group per distinct
label — including the noise label -1 whenever noise is present. -/
theorem cluster_aggregation_noise_amended (rows : List TracedRow) :
    (∀ agg ∈ clusterDetails rows, agg.id ≠ -1) ∧
    clusterDetails (rows.filter (fun r => r.label ≠ -1)) =
      clusterDetails rows ∧
    (clusterInfo rows).map Prod.fst = uniqueLabels rows := by
  refine ⟨?_, ?_, ?_⟩
  · intro agg hagg
    obtain ⟨c, hc, rfl⟩ := List.mem_map.mp hagg
    exact of_decide_eq_true (List.mem_filter.mp hc).2
  · unfold clusterDetails
    rw [uniqueLabels_filter, List.filter_filter]
    simp only [Bool.and_self]
    apply List.map_congr_left
    intro c hc
    have hcne : c ≠ -1 := of_decide_eq_true (List.mem_filter.mp hc).2
    have hgroup : clusterGroup (rows.filter (fun r => r.label ≠ -1)) c =
        clusterGroup rows c := by
      unfold clusterGroup
      rw [List.filter_filter]
      apply List.filter_congr
      intro r _
      rcases eq_or_ne r.label c with h | h
      · simp [h, hcne]
      · simp [h]
    rw [hgroup]
  · unfold clusterInfo
    rw [List.map_map]
    exact List.map_id _

set_option maxRecDepth 100000 in
/-- Counterexample to claim C5 as stated: for a labeled record set with one
noise record, the `groupby('cluster')` summary (lines 87-90) contains a group
whose id is the noise label -1, so a group with the noise label does appear
in the cluster aggregate output. -/
theorem noise_group_in_cluster_info :
    clusterInfo [⟨some "E", (1 : ℚ), -1⟩] = [(-1, 1, 1)] ∧
    ¬ (∀ g ∈ clusterInfo [⟨some "E", (1 : ℚ), -1⟩], g.1 ≠ -1) := by
  with_unfolding_all decide

/-- Witness for the amended C5 at a two-row input with one noise row: the
detailed aggregate has a non-noise id and dropping the noise row changes
nothing. -/
theorem cluster_aggregation_noise_amended_witness :
    ClusterDetail.id ⟨0, 1, 2, [⟨some "F", (2 : ℚ), 0⟩]⟩ ≠ -1 ∧
    clusterDetails
        ([⟨some "E", (1 : ℚ), -1⟩, ⟨some "F", (2 : ℚ), 0⟩].filter
          (fun r => r.label ≠ -1)) =
      clusterDetails [⟨some "E", (1 : ℚ), -1⟩, ⟨some "F", (2 : ℚ), 0⟩] :=
  ⟨(cluster_aggregation_noise_amended
      [⟨some "E", (1 : ℚ), -1⟩, ⟨some "F", (2 : ℚ), 0⟩]).1
      ⟨0, 1, 2, [⟨some "F", (2 : ℚ), 0⟩]⟩ (by with_unfolding_all decide),
    (cluster_aggregation_noise_amended
      [⟨some "E", (1 : ℚ), -1⟩, ⟨some "F", (2 : ℚ), 0⟩]).2.1⟩

end PollutionTrace
